import Mathlib

/-!
Shallow embedding of the `pengine` payments engine
(`src/transaction.rs`, `src/client.rs`, `src/repository.rs`) and proofs
about the claims of its specification.

Modelling choices:
* `ClientId` (`u16`) and `TransactionId` (`u32`) are embedded as `ℕ`;
  no claim depends on their bit width and no operation overflows them.
* `Funds` is embedded as `ℚ`: exact arithmetic, matching the exact
  fixed-point decimal arithmetic assumed by the spec and by
  `ClientAccount::new`'s use of `rust_decimal::Decimal`.  The declared
  Rust alias `pub type Funds = f32` is binary floating point; that
  discrepancy is treated where the relevant claim is settled, the
  remaining claims are about the ledger logic over the embedded exact
  arithmetic.
* The two `BTreeMap`s of `ClientRepository` are embedded as functions
  into `Option`; the claims never depend on iteration order.
* Fallible operations return `Except String`; the diagnostic text is
  abbreviated (no claim inspects it).  In the Rust code every `bail!`
  happens before any field mutation, so an erroring call leaves the
  repository unchanged; `processOne` below reflects how `main.rs` logs
  the error and keeps processing with that unchanged state.
-/

namespace PEngine

abbrev ClientId := ℕ
abbrev TransactionId := ℕ
abbrev Funds := ℚ

/-- `TransactionType` from `src/transaction.rs`. -/
inductive TransactionType where
  | deposit
  | withdrawal
  | dispute
  | resolve
  | chargeback
deriving DecidableEq, Repr

/-- `Transaction` from `src/transaction.rs`. -/
structure Transaction where
  typ : TransactionType
  client : ClientId
  tx : TransactionId
  amount : Option Funds
deriving DecidableEq, Repr

/-- `ClientAccount` from `src/client.rs`. -/
structure ClientAccount where
  client : ClientId
  available : Funds
  held : Funds
  total : Funds
  locked : Bool
deriving DecidableEq, Repr

/-- `ClientAccount::new`: zeroed balances, unlocked. -/
def ClientAccount.new (client : ClientId) : ClientAccount :=
  { client := client, available := 0, held := 0, total := 0, locked := false }

/-- `ClientAccount::deposit`: no-op when `amount` is absent, else adds to
`available` and `total`. -/
def ClientAccount.deposit (a : ClientAccount) (amount : Option Funds) : ClientAccount :=
  match amount with
  | none => a
  | some amt => { a with available := a.available + amt, total := a.total + amt }

/-- `ClientAccount::withdraw`: no-op when `amount` is absent or
`available < amount`, else subtracts from `available` and `total`. -/
def ClientAccount.withdraw (a : ClientAccount) (amount : Option Funds) : ClientAccount :=
  match amount with
  | none => a
  | some amt =>
    if a.available < amt then a
    else { a with available := a.available - amt, total := a.total - amt }

/-- `ClientAccount::dispute`: errors when `amount` is absent, else moves
the amount from `available` to `held`. -/
def ClientAccount.dispute (a : ClientAccount) (amount : Option Funds) :
    Except String ClientAccount :=
  match amount with
  | none => .error "Disputed transaction has an unspecified amount"
  | some amt => .ok { a with available := a.available - amt, held := a.held + amt }

/-- `ClientAccount::resolve`: errors when `amount` is absent, else moves
the amount from `held` back to `available`. -/
def ClientAccount.resolve (a : ClientAccount) (amount : Option Funds) :
    Except String ClientAccount :=
  match amount with
  | none => .error "Resolved transaction has an unspecified amount"
  | some amt => .ok { a with held := a.held - amt, available := a.available + amt }

/-- `ClientAccount::chargeback`: errors when `amount` is absent, else
removes the amount from `held` and `total` and locks the account. -/
def ClientAccount.chargeback (a : ClientAccount) (amount : Option Funds) :
    Except String ClientAccount :=
  match amount with
  | none => .error "Chargedback transaction has an unspecified amount"
  | some amt =>
    .ok { a with held := a.held - amt, total := a.total - amt, locked := true }

/-- `ClientRepository` from `src/repository.rs`; both `BTreeMap`s are
embedded as functions into `Option`. -/
structure ClientRepository where
  clients : ClientId → Option ClientAccount
  transaction_log : TransactionId → Option Transaction

/-- `ClientRepository::new`: both maps empty. -/
def ClientRepository.new : ClientRepository :=
  { clients := fun _ => none, transaction_log := fun _ => none }

/-- Store an account under its client id (the effect of mutating through
the `Entry` API or of `Entry::Vacant::insert`). -/
def updateClient (r : ClientRepository) (c : ClientId) (a : ClientAccount) :
    ClientRepository :=
  { r with clients := fun c2 => if c2 = c then some a else r.clients c2 }

/-- `ClientRepository::log_transaction`: insert the record into the
transaction log under its `tx` id, replacing any previous entry. -/
def ClientRepository.log_transaction (r : ClientRepository) (typ : TransactionType)
    (client : ClientId) (tx : TransactionId) (amount : Option Funds) :
    ClientRepository :=
  { r with transaction_log := fun t =>
      if t = tx then some { typ := typ, client := client, tx := tx, amount := amount }
      else r.transaction_log t }

/-- Overwrite the log entry at key `tx` (the effect of mutating through
`transaction_log.get_mut`). -/
def updateLog (r : ClientRepository) (tx : TransactionId) (tr : Transaction) :
    ClientRepository :=
  { r with transaction_log := fun t => if t = tx then some tr else r.transaction_log t }

/-- `ClientRepository::process` from `src/repository.rs`.

* For an existing client: Deposit/Withdrawal apply the account operation
  and unconditionally log the record; Dispute applies when the logged
  entry exists and its `client` matches (and then re-tags the entry as
  `Dispute`); Resolve/Chargeback apply when the logged entry exists, is
  tagged `Dispute` and its `client` matches, and do not touch the log.
* For an unknown client: a Deposit creates the account and applies the
  deposit (without logging it); anything else is skipped. -/
def ClientRepository.process (r : ClientRepository) (input : Transaction) :
    Except String ClientRepository :=
  match r.clients input.client with
  | some acct =>
    match input.typ with
    | .deposit =>
      .ok ((updateClient r input.client (acct.deposit input.amount)).log_transaction
        .deposit input.client input.tx input.amount)
    | .withdrawal =>
      .ok ((updateClient r input.client (acct.withdraw input.amount)).log_transaction
        .withdrawal input.client input.tx input.amount)
    | .dispute =>
      match r.transaction_log input.tx with
      | some transaction =>
        if transaction.client = input.client then
          match acct.dispute transaction.amount with
          | .error e => .error e
          | .ok acct2 =>
            .ok (updateLog (updateClient r input.client acct2) input.tx
              { transaction with typ := .dispute })
        else .ok r
      | none => .ok r
    | .resolve =>
      match r.transaction_log input.tx with
      | some transaction =>
        if transaction.typ = .dispute ∧ transaction.client = input.client then
          match acct.resolve transaction.amount with
          | .error e => .error e
          | .ok acct2 => .ok (updateClient r input.client acct2)
        else .ok r
      | none => .ok r
    | .chargeback =>
      match r.transaction_log input.tx with
      | some transaction =>
        if transaction.typ = .dispute ∧ transaction.client = input.client then
          match acct.chargeback transaction.amount with
          | .error e => .error e
          | .ok acct2 => .ok (updateClient r input.client acct2)
        else .ok r
      | none => .ok r
  | none =>
    match input.typ with
    | .deposit =>
      .ok (updateClient r input.client ((ClientAccount.new input.client).deposit input.amount))
    | _ => .ok r

/-- One step of the driver loop in `main.rs`: a processing error is
logged and the (unchanged) repository keeps processing. -/
def processOne (r : ClientRepository) (t : Transaction) : ClientRepository :=
  match r.process t with
  | .ok r2 => r2
  | .error _ => r

/-- The driver loop of `main.rs` over a whole input stream. -/
def processStream (r : ClientRepository) (ts : List Transaction) : ClientRepository :=
  ts.foldl processOne r

/-- Strict sequential processing that stops at the first record on which
`process` returns an error; it returns `.ok` exactly when `process`
returned `Ok` on every record of the stream. -/
def processAll (r : ClientRepository) : List Transaction → Except String ClientRepository
  | [] => .ok r
  | t :: ts =>
    match r.process t with
    | .ok r2 => processAll r2 ts
    | .error e => .error e

/-! ### Inversion lemmas for the account operations -/

theorem dispute_eq_ok (a a' : ClientAccount) (amount : Option Funds) :
    a.dispute amount = .ok a' ↔
      ∃ q, amount = some q ∧
        a' = { a with available := a.available - q, held := a.held + q } := by
  cases amount <;> simp [ClientAccount.dispute, eq_comm]

theorem resolve_eq_ok (a a' : ClientAccount) (amount : Option Funds) :
    a.resolve amount = .ok a' ↔
      ∃ q, amount = some q ∧
        a' = { a with held := a.held - q, available := a.available + q } := by
  cases amount <;> simp [ClientAccount.resolve, eq_comm]

theorem chargeback_eq_ok (a a' : ClientAccount) (amount : Option Funds) :
    a.chargeback amount = .ok a' ↔
      ∃ q, amount = some q ∧
        a' = { a with held := a.held - q, total := a.total - q, locked := true } := by
  cases amount <;> simp [ClientAccount.chargeback, eq_comm]

/-! ### The balance invariant `total = available + held` -/

/-- The per-account balance invariant claimed by the spec. -/
def AccountInv (a : ClientAccount) : Prop :=
  a.total = a.available + a.held

/-- Every account stored in the repository satisfies the balance
invariant. -/
def RepoInv (r : ClientRepository) : Prop :=
  ∀ c a, r.clients c = some a → AccountInv a

theorem AccountInv.deposit {a : ClientAccount} (amount : Option Funds)
    (h : AccountInv a) : AccountInv (a.deposit amount) := by
  cases amount <;> simp [ClientAccount.deposit, AccountInv] at h ⊢ <;> linarith

theorem AccountInv.withdraw {a : ClientAccount} (amount : Option Funds)
    (h : AccountInv a) : AccountInv (a.withdraw amount) := by
  cases amount
  · exact h
  · simp only [ClientAccount.withdraw]
    split
    · exact h
    · simp [AccountInv] at h ⊢; linarith

theorem AccountInv.dispute {a a' : ClientAccount} {amount : Option Funds}
    (h : AccountInv a) (h2 : a.dispute amount = .ok a') : AccountInv a' := by
  obtain ⟨q, -, rfl⟩ := (dispute_eq_ok a a' amount).mp h2
  simp [AccountInv] at h ⊢; linarith

theorem AccountInv.resolve {a a' : ClientAccount} {amount : Option Funds}
    (h : AccountInv a) (h2 : a.resolve amount = .ok a') : AccountInv a' := by
  obtain ⟨q, -, rfl⟩ := (resolve_eq_ok a a' amount).mp h2
  simp [AccountInv] at h ⊢; linarith

theorem AccountInv.chargeback {a a' : ClientAccount} {amount : Option Funds}
    (h : AccountInv a) (h2 : a.chargeback amount = .ok a') : AccountInv a' := by
  obtain ⟨q, -, rfl⟩ := (chargeback_eq_ok a a' amount).mp h2
  simp [AccountInv] at h ⊢; linarith

theorem RepoInv.updateClient {r : ClientRepository} {c : ClientId} {a : ClientAccount}
    (hr : RepoInv r) (ha : AccountInv a) : RepoInv (updateClient r c a) := by
  intro c2 a2 h2
  simp only [PEngine.updateClient] at h2
  split at h2
  · cases h2; exact ha
  · exact hr c2 a2 h2

theorem RepoInv.log_transaction {r : ClientRepository} (hr : RepoInv r)
    (typ : TransactionType) (client : ClientId) (tx : TransactionId)
    (amount : Option Funds) : RepoInv (r.log_transaction typ client tx amount) :=
  fun c a h => hr c a h

theorem RepoInv.updateLog {r : ClientRepository} (hr : RepoInv r)
    (tx : TransactionId) (tr : Transaction) : RepoInv (updateLog r tx tr) :=
  fun c a h => hr c a h

theorem RepoInv.process {r r' : ClientRepository} {t : Transaction}
    (hr : RepoInv r) (h : r.process t = .ok r') : RepoInv r' := by
  unfold ClientRepository.process at h
  split at h
  · -- client account already present
    rename_i acct heq
    have hacct : AccountInv acct := hr _ _ heq
    split at h
    · rw [Except.ok.injEq] at h; subst h
      exact (hr.updateClient (hacct.deposit _)).log_transaction _ _ _ _
    · rw [Except.ok.injEq] at h; subst h
      exact (hr.updateClient (hacct.withdraw _)).log_transaction _ _ _ _
    · -- dispute
      split at h
      · split at h
        · split at h
          · simp at h
          · rename_i acct2 hok
            rw [Except.ok.injEq] at h; subst h
            exact (hr.updateClient (hacct.dispute hok)).updateLog _ _
        · rw [Except.ok.injEq] at h; subst h; exact hr
      · rw [Except.ok.injEq] at h; subst h; exact hr
    · -- resolve
      split at h
      · split at h
        · split at h
          · simp at h
          · rename_i acct2 hok
            rw [Except.ok.injEq] at h; subst h
            exact hr.updateClient (hacct.resolve hok)
        · rw [Except.ok.injEq] at h; subst h; exact hr
      · rw [Except.ok.injEq] at h; subst h; exact hr
    · -- chargeback
      split at h
      · split at h
        · split at h
          · simp at h
          · rename_i acct2 hok
            rw [Except.ok.injEq] at h; subst h
            exact hr.updateClient (hacct.chargeback hok)
        · rw [Except.ok.injEq] at h; subst h; exact hr
      · rw [Except.ok.injEq] at h; subst h; exact hr
  · -- vacant branch
    split at h
    · rw [Except.ok.injEq] at h; subst h
      exact hr.updateClient (AccountInv.deposit _ (by simp [AccountInv, ClientAccount.new]))
    · rw [Except.ok.injEq] at h; subst h; exact hr

theorem RepoInv.processOne {r : ClientRepository} (hr : RepoInv r)
    (t : Transaction) : RepoInv (PEngine.processOne r t) := by
  unfold PEngine.processOne
  split
  · rename_i r2 h; exact hr.process h
  · exact hr

theorem RepoInv.processStream {r : ClientRepository} (hr : RepoInv r)
    (ts : List Transaction) : RepoInv (PEngine.processStream r ts) := by
  induction ts generalizing r with
  | nil => exact hr
  | cons t ts ih => exact ih (hr.processOne t)

/-- C1.  For every input stream processed from the initial empty
repository, every account present afterwards satisfies
`total = available + held` exactly; since `processStream` over a prefix
reaches every intermediate state, the invariant holds after each call to
`process`. -/
theorem total_eq_available_add_held (ts : List Transaction) (c : ClientId)
    (a : ClientAccount)
    (h : (processStream ClientRepository.new ts).clients c = some a) :
    a.total = a.available + a.held := by
  refine RepoInv.processStream ?_ ts c a h
  intro c2 a2 h2
  simp [ClientRepository.new] at h2

/-- Witness for C1 at the one-deposit stream. -/
theorem total_eq_available_add_held_witness :
    (ClientAccount.mk 1 10 0 10 false).total
      = (ClientAccount.mk 1 10 0 10 false).available
        + (ClientAccount.mk 1 10 0 10 false).held :=
  total_eq_available_add_held [⟨.deposit, 1, 1, some 10⟩] 1 _ (by
    norm_num [processStream, processOne, ClientRepository.process,
      ClientAccount.deposit, ClientAccount.new, updateClient,
      ClientRepository.log_transaction, ClientRepository.new])

/-! ### Concrete repository used to instantiate the general theorems -/

/-- A small concrete repository: client 1 holds a balanced account, the
log holds a posted withdrawal under tx 1 and a disputed entry under
tx 2. -/
def sampleRepo : ClientRepository where
  clients := fun c => if c = 1 then some ⟨1, 10, 3, 13, false⟩ else none
  transaction_log := fun x =>
    if x = 1 then some ⟨.withdrawal, 1, 1, some 3⟩
    else if x = 2 then some ⟨.dispute, 1, 2, some 3⟩
    else none

/-! ### C10: available funds can go negative through a dispute -/

/-- C10.  On the stream deposit 10, withdraw 10, dispute the withdrawal,
client 1's available funds end at −10: `dispute` moves the logged amount
from `available` to `held` without checking that `available` covers
it. -/
theorem available_can_go_negative :
    (processStream ClientRepository.new
      [⟨.deposit, 1, 1, some 10⟩, ⟨.withdrawal, 1, 2, some 10⟩,
       ⟨.dispute, 1, 2, none⟩]).clients 1
      = some ⟨1, -10, 10, 0, false⟩ ∧ (-10 : Funds) < 0 := by
  constructor
  · norm_num [processStream, processOne, ClientRepository.process,
      ClientRepository.log_transaction, updateClient, updateLog,
      ClientAccount.new, ClientAccount.deposit, ClientAccount.withdraw,
      ClientAccount.dispute, ClientRepository.new]
  · norm_num

/-! ### C2: logging of deposits and withdrawals -/

/-- C2 counterexample.  The first deposit, which creates client 1's
account through the vacant branch of `process`, is not logged: the
transaction log has no entry under its tx id afterwards. -/
theorem account_creating_deposit_not_logged :
    (processStream ClientRepository.new
      [⟨.deposit, 1, 1, some 10⟩]).transaction_log 1 = none := rfl

/-- C2 amended.  A Deposit or Withdrawal record processed for a client
whose account already exists is afterwards logged under its tx id with
its own kind (status Posted); a Deposit for an unknown client is applied
through the vacant branch without touching the log. -/
theorem primary_record_logging (r : ClientRepository) (t : Transaction)
    (h : t.typ = .deposit ∨ t.typ = .withdrawal) :
    ((r.clients t.client).isSome →
      (processOne r t).transaction_log t.tx
        = some ⟨t.typ, t.client, t.tx, t.amount⟩) ∧
    (r.clients t.client = none →
      ∀ x, (processOne r t).transaction_log x = r.transaction_log x) := by
  obtain ⟨typ, client, tx, amount⟩ := t
  cases hc : r.clients client with
  | some acct =>
    refine ⟨fun _ => ?_, fun hn => by simp [hc] at hn⟩
    rcases h with rfl | rfl <;>
      simp [processOne, ClientRepository.process, hc,
        ClientRepository.log_transaction, updateClient]
  | none =>
    refine ⟨fun hs => by simp [hc] at hs, fun _ x => ?_⟩
    rcases h with rfl | rfl <;>
      simp [processOne, ClientRepository.process, hc, updateClient]

/-- Witness for C2's amended theorem: a withdrawal for the existing
client 1 of `sampleRepo` is logged under its tx id. -/
theorem primary_record_logging_witness :
    (processOne sampleRepo ⟨.withdrawal, 1, 7, some 4⟩).transaction_log 7
      = some ⟨.withdrawal, 1, 7, some 4⟩ :=
  (primary_record_logging sampleRepo ⟨.withdrawal, 1, 7, some 4⟩
    (Or.inr rfl)).1 (by rfl)

/-! ### C3: the status state machine of a logged entry -/

/-- C3 counterexample.  After deposit, deposit, dispute, the entry under
tx 2 is tagged `Dispute` (not Posted); a second dispute of tx 2 is
nevertheless applied and moves the amount again: held goes from 10
to 20.  The claimed Posted-only gating of Dispute does not exist. -/
theorem dispute_status_machine_cex :
    (processStream ClientRepository.new
      [⟨.deposit, 1, 1, some 10⟩, ⟨.deposit, 1, 2, some 10⟩,
       ⟨.dispute, 1, 2, none⟩]).transaction_log 2
      = some ⟨.dispute, 1, 2, some 10⟩ ∧
    (processStream ClientRepository.new
      [⟨.deposit, 1, 1, some 10⟩, ⟨.deposit, 1, 2, some 10⟩,
       ⟨.dispute, 1, 2, none⟩, ⟨.dispute, 1, 2, none⟩]).clients 1
      = some ⟨1, 0, 20, 20, false⟩ := by
  constructor <;>
    norm_num [processStream, processOne, ClientRepository.process,
      ClientRepository.log_transaction, updateClient, updateLog,
      ClientAccount.new, ClientAccount.deposit, ClientAccount.dispute,
      ClientRepository.new]

/-- C3 amended.  A Dispute is applied whenever the referenced logged
entry exists and belongs to the same client, regardless of the entry's
current status tag, and re-tags the entry `Dispute`; when the entry is
missing or belongs to another client the Dispute is skipped silently
with no state change; a Resolve never writes to the transaction log, so
a successful Resolve leaves the entry tagged `Dispute` and a later
Resolve or Chargeback against the same tx is accepted again. -/
theorem dispute_resolve_status_behavior (r : ClientRepository) (t : Transaction) :
    (t.typ = .dispute → ∀ a tr q, r.clients t.client = some a →
      r.transaction_log t.tx = some tr → tr.client = t.client →
      tr.amount = some q →
      (processOne r t).clients t.client
        = some { a with available := a.available - q, held := a.held + q } ∧
      (processOne r t).transaction_log t.tx = some { tr with typ := .dispute }) ∧
    (t.typ = .dispute → r.transaction_log t.tx = none → processOne r t = r) ∧
    (t.typ = .dispute → ∀ tr, r.transaction_log t.tx = some tr →
      tr.client ≠ t.client → processOne r t = r) ∧
    (t.typ = .resolve →
      ∀ x, (processOne r t).transaction_log x = r.transaction_log x) := by
  obtain ⟨typ, client, tx, amount⟩ := t
  refine ⟨?_, ?_, ?_, ?_⟩
  · rintro rfl a tr q ha htr hcl hamt
    simp only at ha htr ⊢
    simp [processOne, ClientRepository.process, ha, htr, hcl, hamt,
      ClientAccount.dispute, updateLog, updateClient]
  · rintro rfl htr
    simp only at htr ⊢
    cases ha : r.clients client with
    | none => simp [processOne, ClientRepository.process, ha]
    | some a => simp [processOne, ClientRepository.process, ha, htr]
  · rintro rfl tr htr hcl
    simp only at htr hcl ⊢
    cases ha : r.clients client with
    | none => simp [processOne, ClientRepository.process, ha]
    | some a => simp [processOne, ClientRepository.process, ha, htr, hcl]
  · rintro rfl x
    cases ha : r.clients client with
    | none => simp [processOne, ClientRepository.process, ha]
    | some a =>
      cases htr : r.transaction_log tx with
      | none => simp [processOne, ClientRepository.process, ha, htr]
      | some tr =>
        by_cases hg : tr.typ = .dispute ∧ tr.client = client
        · cases hamt : tr.amount with
          | none =>
            simp [processOne, ClientRepository.process, ha, htr, hg, hamt,
              ClientAccount.resolve]
          | some q =>
            simp [processOne, ClientRepository.process, ha, htr, hg, hamt,
              ClientAccount.resolve, updateClient]
        · simp [processOne, ClientRepository.process, ha, htr, hg]

/-- Witness for C3's amended theorem: disputing `sampleRepo`'s tx 2,
whose entry is already tagged `Dispute`, still moves the amount; a
resolve of tx 2 leaves the log entry untouched. -/
theorem dispute_resolve_status_behavior_witness :
    ((processOne sampleRepo ⟨.dispute, 1, 2, none⟩).clients 1
        = some ⟨1, 10 - 3, 3 + 3, 13, false⟩ ∧
      (processOne sampleRepo ⟨.dispute, 1, 2, none⟩).transaction_log 2
        = some ⟨.dispute, 1, 2, some 3⟩) ∧
    (processOne sampleRepo ⟨.resolve, 1, 2, none⟩).transaction_log 2
      = sampleRepo.transaction_log 2 :=
  ⟨(dispute_resolve_status_behavior sampleRepo ⟨.dispute, 1, 2, none⟩).1
      rfl ⟨1, 10, 3, 13, false⟩ ⟨.dispute, 1, 2, some 3⟩ 3 rfl rfl rfl rfl,
    (dispute_resolve_status_behavior sampleRepo ⟨.resolve, 1, 2, none⟩).2.2.2 rfl 2⟩

/-! ### C5: chargeback is not terminal for the logged entry -/

/-- C5 counterexample.  Deposit, deposit, dispute tx 2, chargeback tx 2
locks the account with held 0; a later resolve of the same tx 2 is still
applied and changes the account state (held −5, available 15). -/
theorem chargeback_not_terminal_cex :
    (processStream ClientRepository.new
      [⟨.deposit, 1, 1, some 10⟩, ⟨.deposit, 1, 2, some 5⟩,
       ⟨.dispute, 1, 2, none⟩, ⟨.chargeback, 1, 2, none⟩]).clients 1
      = some ⟨1, 10, 0, 10, true⟩ ∧
    (processStream ClientRepository.new
      [⟨.deposit, 1, 1, some 10⟩, ⟨.deposit, 1, 2, some 5⟩,
       ⟨.dispute, 1, 2, none⟩, ⟨.chargeback, 1, 2, none⟩,
       ⟨.resolve, 1, 2, none⟩]).clients 1
      = some ⟨1, 15, -5, 10, true⟩ := by
  constructor <;>
    norm_num [processStream, processOne, ClientRepository.process,
      ClientRepository.log_transaction, updateClient, updateLog,
      ClientAccount.new, ClientAccount.deposit, ClientAccount.dispute,
      ClientAccount.resolve, ClientAccount.chargeback, ClientRepository.new]

/-- C5 amended.  A Chargeback never writes to the transaction log, so
the entry it charged back stays tagged `Dispute`; consequently a later
Resolve referencing the same tx still passes the guard and is applied,
changing the account state.  The logged entry is not terminal — only the
account's `locked` flag records the chargeback, and `locked` gates
nothing. -/
theorem chargeback_not_terminal (r : ClientRepository) (t : Transaction) :
    (t.typ = .chargeback →
      ∀ x, (processOne r t).transaction_log x = r.transaction_log x) ∧
    (t.typ = .resolve → ∀ a tr q, r.clients t.client = some a →
      r.transaction_log t.tx = some tr → tr.typ = .dispute →
      tr.client = t.client → tr.amount = some q →
      (processOne r t).clients t.client
        = some { a with held := a.held - q, available := a.available + q }) := by
  obtain ⟨typ, client, tx, amount⟩ := t
  constructor
  · rintro rfl x
    cases ha : r.clients client with
    | none => simp [processOne, ClientRepository.process, ha]
    | some a =>
      cases htr : r.transaction_log tx with
      | none => simp [processOne, ClientRepository.process, ha, htr]
      | some tr =>
        by_cases hg : tr.typ = .dispute ∧ tr.client = client
        · cases hamt : tr.amount with
          | none =>
            simp [processOne, ClientRepository.process, ha, htr, hg, hamt,
              ClientAccount.chargeback]
          | some q =>
            simp [processOne, ClientRepository.process, ha, htr, hg, hamt,
              ClientAccount.chargeback, updateClient]
        · simp [processOne, ClientRepository.process, ha, htr, hg]
  · rintro rfl a tr q ha htr htyp hcl hamt
    simp only at ha htr ⊢
    simp [processOne, ClientRepository.process, ha, htr, htyp, hcl, hamt,
      ClientAccount.resolve, updateClient]

/-- Witness for C5's amended theorem: a chargeback of `sampleRepo`'s
disputed tx 2 leaves the log entry unchanged, and a resolve of tx 2 is
applied to the account. -/
theorem chargeback_not_terminal_witness :
    (processOne sampleRepo ⟨.chargeback, 1, 2, none⟩).transaction_log 2
      = sampleRepo.transaction_log 2 ∧
    (processOne sampleRepo ⟨.resolve, 1, 2, none⟩).clients 1
      = some ⟨1, 10 + 3, 3 - 3, 13, false⟩ :=
  ⟨(chargeback_not_terminal sampleRepo ⟨.chargeback, 1, 2, none⟩).1 rfl 2,
    (chargeback_not_terminal sampleRepo ⟨.resolve, 1, 2, none⟩).2
      rfl ⟨1, 10, 3, 13, false⟩ ⟨.dispute, 1, 2, some 3⟩ 3 rfl rfl rfl rfl rfl⟩

/-! ### C4: with validated input the core never returns an error -/

/-- Every logged entry carries an amount. -/
def LogAmountsPresent (r : ClientRepository) : Prop :=
  ∀ x tr, r.transaction_log x = some tr → tr.amount.isSome

/-- A single `process` call on a repository whose log entries all carry
amounts returns `Ok` and preserves that property, provided the record
itself carries an amount when it is a Deposit or Withdrawal. -/
theorem process_ok_of_logAmounts {r : ClientRepository} {t : Transaction}
    (hlog : LogAmountsPresent r)
    (hamt : t.typ = .deposit ∨ t.typ = .withdrawal → t.amount.isSome) :
    ∃ r', r.process t = .ok r' ∧ LogAmountsPresent r' := by
  obtain ⟨typ, client, tx, amount⟩ := t
  cases ha : r.clients client with
  | none =>
    cases typ with
    | deposit =>
      exact ⟨updateClient r client ((ClientAccount.new client).deposit amount),
        by simp [ClientRepository.process, ha], fun x tr hx => hlog x tr hx⟩
    | withdrawal => exact ⟨r, by simp [ClientRepository.process, ha], hlog⟩
    | dispute => exact ⟨r, by simp [ClientRepository.process, ha], hlog⟩
    | resolve => exact ⟨r, by simp [ClientRepository.process, ha], hlog⟩
    | chargeback => exact ⟨r, by simp [ClientRepository.process, ha], hlog⟩
  | some a =>
    cases typ with
    | deposit =>
      refine ⟨(updateClient r client (a.deposit amount)).log_transaction
          .deposit client tx amount,
        by simp [ClientRepository.process, ha], fun x tr hx => ?_⟩
      simp only [ClientRepository.log_transaction, updateClient] at hx
      split at hx
      · cases hx; exact hamt (by simp)
      · exact hlog x tr hx
    | withdrawal =>
      refine ⟨(updateClient r client (a.withdraw amount)).log_transaction
          .withdrawal client tx amount,
        by simp [ClientRepository.process, ha], fun x tr hx => ?_⟩
      simp only [ClientRepository.log_transaction, updateClient] at hx
      split at hx
      · cases hx; exact hamt (by simp)
      · exact hlog x tr hx
    | dispute =>
      cases htr : r.transaction_log tx with
      | none =>
        exact ⟨r, by simp [ClientRepository.process, ha, htr], hlog⟩
      | some tr =>
        by_cases hcl : tr.client = client
        · obtain ⟨q, hq⟩ := Option.isSome_iff_exists.mp (hlog tx tr htr)
          refine ⟨updateLog (updateClient r client
              { a with available := a.available - q, held := a.held + q }) tx
              { tr with typ := .dispute },
            by simp [ClientRepository.process, ha, htr, hcl, hq,
              ClientAccount.dispute], fun x tr2 hx => ?_⟩
          simp only [updateLog, updateClient] at hx
          split at hx
          · cases hx; simpa using hlog tx tr htr
          · exact hlog x tr2 hx
        · exact ⟨r, by simp [ClientRepository.process, ha, htr, hcl], hlog⟩
    | resolve =>
      cases htr : r.transaction_log tx with
      | none =>
        exact ⟨r, by simp [ClientRepository.process, ha, htr], hlog⟩
      | some tr =>
        by_cases hg : tr.typ = .dispute ∧ tr.client = client
        · obtain ⟨q, hq⟩ := Option.isSome_iff_exists.mp (hlog tx tr htr)
          exact ⟨updateClient r client
              { a with held := a.held - q, available := a.available + q },
            by simp [ClientRepository.process, ha, htr, hg, hq,
              ClientAccount.resolve], fun x tr2 hx => hlog x tr2 hx⟩
        · exact ⟨r, by simp [ClientRepository.process, ha, htr, hg], hlog⟩
    | chargeback =>
      cases htr : r.transaction_log tx with
      | none =>
        exact ⟨r, by simp [ClientRepository.process, ha, htr], hlog⟩
      | some tr =>
        by_cases hg : tr.typ = .dispute ∧ tr.client = client
        · obtain ⟨q, hq⟩ := Option.isSome_iff_exists.mp (hlog tx tr htr)
          exact ⟨updateClient r client
              { a with held := a.held - q, total := a.total - q, locked := true },
            by simp [ClientRepository.process, ha, htr, hg, hq,
              ClientAccount.chargeback], fun x tr2 hx => hlog x tr2 hx⟩
        · exact ⟨r, by simp [ClientRepository.process, ha, htr, hg], hlog⟩

theorem processAll_ok_of_logAmounts {r : ClientRepository}
    (hlog : LogAmountsPresent r) (ts : List Transaction)
    (h : ∀ t ∈ ts, t.typ = .deposit ∨ t.typ = .withdrawal → t.amount.isSome) :
    ∃ r', processAll r ts = .ok r' ∧ LogAmountsPresent r' := by
  induction ts generalizing r with
  | nil => exact ⟨r, rfl, hlog⟩
  | cons t ts ih =>
    obtain ⟨r2, hok, hlog2⟩ :=
      process_ok_of_logAmounts hlog (h t (List.mem_cons_self t ts))
    obtain ⟨r3, hok3, hlog3⟩ :=
      ih hlog2 (fun t2 ht2 => h t2 (List.mem_cons_of_mem t ht2))
    exact ⟨r3, by simp [processAll, hok, hok3], hlog3⟩

/-- C4.  On an input stream in which every Deposit and Withdrawal record
carries an amount, `process` returns `Ok` on every record: every logged
entry then carries an amount, so the missing-amount error branches of
dispute, resolve and chargeback are never taken. -/
theorem process_ok_of_amounts_present (ts : List Transaction)
    (h : ∀ t ∈ ts, t.typ = .deposit ∨ t.typ = .withdrawal → t.amount.isSome) :
    ∃ r', processAll ClientRepository.new ts = .ok r' := by
  obtain ⟨r', hok, -⟩ :=
    processAll_ok_of_logAmounts (r := ClientRepository.new)
      (fun x tr hx => by simp [ClientRepository.new] at hx) ts h
  exact ⟨r', hok⟩

/-- Witness for C4 on a concrete validated stream exercising all five
record kinds. -/
theorem process_ok_of_amounts_present_witness :
    ∃ r', processAll ClientRepository.new
      [⟨.deposit, 1, 1, some 10⟩, ⟨.deposit, 1, 2, some 5⟩,
       ⟨.dispute, 1, 2, none⟩, ⟨.resolve, 1, 2, none⟩,
       ⟨.dispute, 1, 2, none⟩, ⟨.chargeback, 1, 2, none⟩,
       ⟨.withdrawal, 1, 3, some 1⟩] = .ok r' :=
  process_ok_of_amounts_present _ (by
    intro t ht
    fin_cases ht <;> simp)

/-! ### Characterization of a single step's effect on one account -/

/-- What one `processOne` step can do to the account stored under `c`:
leave it alone; apply the operation of the record's kind to the existing
account of `c = t.client`; or create `t.client`'s account through the
vacant deposit branch. -/
theorem processOne_clients_cases (r : ClientRepository) (t : Transaction)
    (c : ClientId) :
    (processOne r t).clients c = r.clients c ∨
    (c = t.client ∧ ∃ a, r.clients c = some a ∧
      ((t.typ = .deposit ∧
          (processOne r t).clients c = some (a.deposit t.amount)) ∨
       (t.typ = .withdrawal ∧
          (processOne r t).clients c = some (a.withdraw t.amount)) ∨
       (t.typ = .dispute ∧ ∃ q, (processOne r t).clients c
          = some { a with available := a.available - q, held := a.held + q }) ∨
       (t.typ = .resolve ∧ ∃ q, (processOne r t).clients c
          = some { a with held := a.held - q, available := a.available + q }) ∨
       (t.typ = .chargeback ∧ ∃ q, (processOne r t).clients c
          = some { a with held := a.held - q, total := a.total - q, locked := true }))) ∨
    (c = t.client ∧ t.typ = .deposit ∧ r.clients c = none ∧
      (processOne r t).clients c
        = some ((ClientAccount.new t.client).deposit t.amount)) := by
  obtain ⟨typ, client, tx, amount⟩ := t
  by_cases hcc : c = client
  case neg =>
    -- a step never touches another client's account
    left
    cases ha : r.clients client with
    | none =>
      cases typ <;>
        simp [processOne, ClientRepository.process, ha, updateClient, hcc]
    | some a =>
      cases typ with
      | deposit =>
        simp [processOne, ClientRepository.process, ha, updateClient,
          ClientRepository.log_transaction, hcc]
      | withdrawal =>
        simp [processOne, ClientRepository.process, ha, updateClient,
          ClientRepository.log_transaction, hcc]
      | dispute =>
        cases htr : r.transaction_log tx with
        | none => simp [processOne, ClientRepository.process, ha, htr]
        | some tr =>
          by_cases hcl : tr.client = client
          · cases hamt : tr.amount with
            | none =>
              simp [processOne, ClientRepository.process, ha, htr, hcl, hamt,
                ClientAccount.dispute]
            | some q =>
              simp [processOne, ClientRepository.process, ha, htr, hcl, hamt,
                ClientAccount.dispute, updateLog, updateClient, hcc]
          · simp [processOne, ClientRepository.process, ha, htr, hcl]
      | resolve =>
        cases htr : r.transaction_log tx with
        | none => simp [processOne, ClientRepository.process, ha, htr]
        | some tr =>
          by_cases hg : tr.typ = .dispute ∧ tr.client = client
          · cases hamt : tr.amount with
            | none =>
              simp [processOne, ClientRepository.process, ha, htr, hg, hamt,
                ClientAccount.resolve]
            | some q =>
              simp [processOne, ClientRepository.process, ha, htr, hg, hamt,
                ClientAccount.resolve, updateClient, hcc]
          · simp [processOne, ClientRepository.process, ha, htr, hg]
      | chargeback =>
        cases htr : r.transaction_log tx with
        | none => simp [processOne, ClientRepository.process, ha, htr]
        | some tr =>
          by_cases hg : tr.typ = .dispute ∧ tr.client = client
          · cases hamt : tr.amount with
            | none =>
              simp [processOne, ClientRepository.process, ha, htr, hg, hamt,
                ClientAccount.chargeback]
            | some q =>
              simp [processOne, ClientRepository.process, ha, htr, hg, hamt,
                ClientAccount.chargeback, updateClient, hcc]
          · simp [processOne, ClientRepository.process, ha, htr, hg]
  case pos =>
    subst hcc
    cases ha : r.clients c with
    | none =>
      cases typ with
      | deposit =>
        right; right
        exact ⟨rfl, rfl, rfl,
          by simp [processOne, ClientRepository.process, ha, updateClient]⟩
      | withdrawal => left; simp [processOne, ClientRepository.process, ha]
      | dispute => left; simp [processOne, ClientRepository.process, ha]
      | resolve => left; simp [processOne, ClientRepository.process, ha]
      | chargeback => left; simp [processOne, ClientRepository.process, ha]
    | some a =>
      cases typ with
      | deposit =>
        right; left
        exact ⟨rfl, a, rfl, Or.inl ⟨rfl,
          by simp [processOne, ClientRepository.process, ha, updateClient,
            ClientRepository.log_transaction]⟩⟩
      | withdrawal =>
        right; left
        exact ⟨rfl, a, rfl, Or.inr (Or.inl ⟨rfl,
          by simp [processOne, ClientRepository.process, ha, updateClient,
            ClientRepository.log_transaction]⟩)⟩
      | dispute =>
        cases htr : r.transaction_log tx with
        | none => left; simp [processOne, ClientRepository.process, ha, htr]
        | some tr =>
          by_cases hcl : tr.client = c
          · cases hamt : tr.amount with
            | none =>
              left
              simp [processOne, ClientRepository.process, ha, htr, hcl, hamt,
                ClientAccount.dispute]
            | some q =>
              right; left
              refine ⟨rfl, a, rfl, Or.inr (Or.inr (Or.inl ⟨rfl, q, ?_⟩))⟩
              simp [processOne, ClientRepository.process, ha, htr, hcl, hamt,
                ClientAccount.dispute, updateLog, updateClient]
          · left; simp [processOne, ClientRepository.process, ha, htr, hcl]
      | resolve =>
        cases htr : r.transaction_log tx with
        | none => left; simp [processOne, ClientRepository.process, ha, htr]
        | some tr =>
          by_cases hg : tr.typ = .dispute ∧ tr.client = c
          · cases hamt : tr.amount with
            | none =>
              left
              simp [processOne, ClientRepository.process, ha, htr, hg, hamt,
                ClientAccount.resolve]
            | some q =>
              right; left
              refine ⟨rfl, a, rfl, Or.inr (Or.inr (Or.inr (Or.inl ⟨rfl, q, ?_⟩)))⟩
              simp [processOne, ClientRepository.process, ha, htr, hg, hamt,
                ClientAccount.resolve, updateClient]
          · left; simp [processOne, ClientRepository.process, ha, htr, hg]
      | chargeback =>
        cases htr : r.transaction_log tx with
        | none => left; simp [processOne, ClientRepository.process, ha, htr]
        | some tr =>
          by_cases hg : tr.typ = .dispute ∧ tr.client = c
          · cases hamt : tr.amount with
            | none =>
              left
              simp [processOne, ClientRepository.process, ha, htr, hg, hamt,
                ClientAccount.chargeback]
            | some q =>
              right; left
              refine ⟨rfl, a, rfl,
                Or.inr (Or.inr (Or.inr (Or.inr ⟨rfl, q, ?_⟩)))⟩
              simp [processOne, ClientRepository.process, ha, htr, hg, hamt,
                ClientAccount.chargeback, updateClient]
          · left; simp [processOne, ClientRepository.process, ha, htr, hg]

theorem deposit_locked (a : ClientAccount) (amount : Option Funds) :
    (a.deposit amount).locked = a.locked := by
  cases amount <;> rfl

theorem withdraw_locked (a : ClientAccount) (amount : Option Funds) :
    (a.withdraw amount).locked = a.locked := by
  cases amount
  · rfl
  · simp only [ClientAccount.withdraw]
    split <;> rfl

/-! ### C7: `locked` is monotonic and only Chargeback sets it -/

/-- C7.  Across one `process` step, an account's `locked` flag never
falls back from `true` to `false`; and when it rises from `false` to
`true` the record was a Chargeback. -/
theorem locked_monotonic (r : ClientRepository) (t : Transaction) (c : ClientId)
    (a a' : ClientAccount) (h1 : r.clients c = some a)
    (h2 : (processOne r t).clients c = some a') :
    (a.locked = true → a'.locked = true) ∧
    (a.locked = false → a'.locked = true → t.typ = .chargeback) := by
  rcases processOne_clients_cases r t c with heq | ⟨hcc, b, hb, hop⟩ | ⟨hcc, -, hnone, -⟩
  · rw [heq, h1] at h2
    cases h2
    exact ⟨fun h => h, fun h h2 => absurd h2 (by simp [h])⟩
  · rw [h1] at hb; cases hb
    rcases hop with ⟨ht, hres⟩ | ⟨ht, hres⟩ | ⟨ht, q, hres⟩ | ⟨ht, q, hres⟩
      | ⟨ht, q, hres⟩ <;> rw [hres] at h2 <;> cases h2
    · rw [deposit_locked]
      exact ⟨fun h => h, fun h h2 => absurd h2 (by simp [h])⟩
    · rw [withdraw_locked]
      exact ⟨fun h => h, fun h h2 => absurd h2 (by simp [h])⟩
    · exact ⟨fun h => h, fun h h2 => absurd h2 (by simp [h])⟩
    · exact ⟨fun h => h, fun h h2 => absurd h2 (by simp [h])⟩
    · exact ⟨fun _ => rfl, fun _ _ => ht⟩
  · rw [hnone] at h1; cases h1

/-- Witness for C7: charging back `sampleRepo`'s disputed tx 2 locks
client 1's account, and the record kind is indeed Chargeback. -/
theorem locked_monotonic_witness :
    ((false : Bool) = true → (true : Bool) = true) ∧
    ((false : Bool) = false → (true : Bool) = true →
      (⟨.chargeback, 1, 2, none⟩ : Transaction).typ = .chargeback) :=
  locked_monotonic sampleRepo ⟨.chargeback, 1, 2, none⟩ 1
    ⟨1, 10, 3, 13, false⟩ ⟨1, 10, 3 - 3, 13 - 3, true⟩ rfl rfl

/-! ### C8: Dispute and Resolve never change `total` -/

/-- C8.  A Dispute or Resolve record leaves every account's `total`
unchanged; only Deposit, Withdrawal and Chargeback records ever change a
`total`. -/
theorem dispute_resolve_preserve_total (r : ClientRepository)
    (t : Transaction) (c : ClientId)
    (h : t.typ = .dispute ∨ t.typ = .resolve) :
    Option.map ClientAccount.total ((processOne r t).clients c)
      = Option.map ClientAccount.total (r.clients c) := by
  rcases processOne_clients_cases r t c with heq | ⟨hcc, a, ha, hop⟩
    | ⟨hcc, ht, hnone, hres⟩
  · rw [heq]
  · rcases hop with ⟨ht, hres⟩ | ⟨ht, hres⟩ | ⟨ht, q, hres⟩ | ⟨ht, q, hres⟩
      | ⟨ht, q, hres⟩
    · rcases h with h | h <;> rw [ht] at h <;> exact absurd h (by decide)
    · rcases h with h | h <;> rw [ht] at h <;> exact absurd h (by decide)
    · rw [hres, ha]; rfl
    · rw [hres, ha]; rfl
    · rcases h with h | h <;> rw [ht] at h <;> exact absurd h (by decide)
  · rcases h with h | h <;> rw [h] at ht <;> cases ht

/-- Witness for C8: resolving `sampleRepo`'s disputed tx 2 leaves
client 1's total at 13. -/
theorem dispute_resolve_preserve_total_witness :
    Option.map ClientAccount.total
      ((processOne sampleRepo ⟨.resolve, 1, 2, none⟩).clients 1)
      = Option.map ClientAccount.total (sampleRepo.clients 1) :=
  dispute_resolve_preserve_total sampleRepo ⟨.resolve, 1, 2, none⟩ 1
    (Or.inr rfl)

/-! ### C9: a locked account is processed exactly like an unlocked one -/

/-- Force an account's `locked` flag to `true`. -/
def lockAcc (a : ClientAccount) : ClientAccount := { a with locked := true }

/-- Force the `locked` flag of the account stored under `c` (a no-op
when `c` has no account). -/
def setLocked (c : ClientId) (r : ClientRepository) : ClientRepository :=
  { r with clients := fun c2 =>
      if c2 = c then (r.clients c2).map lockAcc else r.clients c2 }

theorem setLocked_transaction_log (c : ClientId) (r : ClientRepository) :
    (setLocked c r).transaction_log = r.transaction_log := rfl

theorem deposit_lockAcc (a : ClientAccount) (amount : Option Funds) :
    (lockAcc a).deposit amount = lockAcc (a.deposit amount) := by
  cases amount <;> rfl

theorem withdraw_lockAcc (a : ClientAccount) (amount : Option Funds) :
    (lockAcc a).withdraw amount = lockAcc (a.withdraw amount) := by
  cases amount
  · rfl
  · simp only [ClientAccount.withdraw, lockAcc]
    split <;> rfl

theorem dispute_lockAcc (a : ClientAccount) (amount : Option Funds) :
    (lockAcc a).dispute amount = (a.dispute amount).map lockAcc := by
  cases amount <;> rfl

theorem resolve_lockAcc (a : ClientAccount) (amount : Option Funds) :
    (lockAcc a).resolve amount = (a.resolve amount).map lockAcc := by
  cases amount <;> rfl

theorem chargeback_lockAcc (a : ClientAccount) (amount : Option Funds) :
    (lockAcc a).chargeback amount = (a.chargeback amount).map lockAcc := by
  cases amount <;> rfl

theorem setLocked_updateClient_self (r : ClientRepository) (c : ClientId)
    (a : ClientAccount) :
    updateClient (setLocked c r) c (lockAcc a) = setLocked c (updateClient r c a) := by
  unfold updateClient setLocked
  congr 1
  funext c2
  by_cases h : c2 = c <;> simp [h]

theorem setLocked_updateClient_ne (r : ClientRepository) (c c' : ClientId)
    (a : ClientAccount) (h : c' ≠ c) :
    updateClient (setLocked c r) c' a = setLocked c (updateClient r c' a) := by
  unfold updateClient setLocked
  congr 1
  funext c2
  by_cases h1 : c2 = c' <;> by_cases h2 : c2 = c <;> simp_all

theorem setLocked_log_transaction (r : ClientRepository) (c : ClientId)
    (typ : TransactionType) (client : ClientId) (tx : TransactionId)
    (amount : Option Funds) :
    (setLocked c r).log_transaction typ client tx amount
      = setLocked c (r.log_transaction typ client tx amount) := rfl

theorem setLocked_updateLog (r : ClientRepository) (c : ClientId)
    (tx : TransactionId) (tr : Transaction) :
    updateLog (setLocked c r) tx tr = setLocked c (updateLog r tx tr) := rfl

/-- C9.  Locking never gates anything: processing any record against the
repository with client `c`'s account forcibly locked produces exactly
the locked image of processing it against the original repository — the
same error (if any), the same balance mutations, the same log updates.
`c` must already have an account, since locking an absent account is a
no-op while a later deposit would create it unlocked. -/
theorem locked_account_not_gated (r : ClientRepository) (t : Transaction)
    (c : ClientId) (h : (r.clients c).isSome) :
    (setLocked c r).process t = (r.process t).map (setLocked c) := by
  obtain ⟨typ, client, tx, amount⟩ := t
  by_cases hcc : client = c
  case pos =>
    subst hcc
    obtain ⟨a, ha⟩ := Option.isSome_iff_exists.mp h
    have hl : (setLocked client r).clients client = some (lockAcc a) := by
      simp [setLocked, ha]
    cases typ with
    | deposit =>
      simp only [ClientRepository.process, ha, hl, Except.map]
      rw [deposit_lockAcc, setLocked_updateClient_self, setLocked_log_transaction]
    | withdrawal =>
      simp only [ClientRepository.process, ha, hl, Except.map]
      rw [withdraw_lockAcc, setLocked_updateClient_self, setLocked_log_transaction]
    | dispute =>
      simp only [ClientRepository.process, ha, hl, setLocked_transaction_log]
      cases htr : r.transaction_log tx with
      | none => simp [Except.map]
      | some tr =>
        by_cases hcl : tr.client = client
        · simp only [hcl, if_pos rfl, dispute_lockAcc]
          cases hd : a.dispute tr.amount with
          | error e => simp [Except.map]
          | ok acct2 =>
            simp only [Except.map]
            rw [setLocked_updateClient_self, setLocked_updateLog]
            simp
        · simp [hcl, Except.map]
    | resolve =>
      simp only [ClientRepository.process, ha, hl, setLocked_transaction_log]
      cases htr : r.transaction_log tx with
      | none => simp [Except.map]
      | some tr =>
        by_cases hg : tr.typ = .dispute ∧ tr.client = client
        · simp only [hg, if_pos, resolve_lockAcc]
          cases hd : a.resolve tr.amount with
          | error e => simp [Except.map]
          | ok acct2 =>
            simp only [Except.map]
            rw [setLocked_updateClient_self]
            simp
        · simp [hg, Except.map]
    | chargeback =>
      simp only [ClientRepository.process, ha, hl, setLocked_transaction_log]
      cases htr : r.transaction_log tx with
      | none => simp [Except.map]
      | some tr =>
        by_cases hg : tr.typ = .dispute ∧ tr.client = client
        · simp only [hg, if_pos, chargeback_lockAcc]
          cases hd : a.chargeback tr.amount with
          | error e => simp [Except.map]
          | ok acct2 =>
            simp only [Except.map]
            rw [setLocked_updateClient_self]
            simp
        · simp [hg, Except.map]
  case neg =>
    have hl : (setLocked c r).clients client = r.clients client := by
      simp [setLocked, hcc]
    cases ha : r.clients client with
    | none =>
      cases typ
      all_goals simp only [ClientRepository.process, ha, hl, Except.map]
      all_goals
        first
          | rfl
          | exact congrArg Except.ok (setLocked_updateClient_ne r c client _ hcc)
    | some a =>
      cases typ with
      | deposit =>
        simp only [ClientRepository.process, ha, hl, Except.map]
        rw [setLocked_updateClient_ne r c client _ hcc, setLocked_log_transaction]
      | withdrawal =>
        simp only [ClientRepository.process, ha, hl, Except.map]
        rw [setLocked_updateClient_ne r c client _ hcc, setLocked_log_transaction]
      | dispute =>
        simp only [ClientRepository.process, ha, hl, setLocked_transaction_log]
        cases htr : r.transaction_log tx with
        | none => simp [Except.map]
        | some tr =>
          by_cases hcl : tr.client = client
          · simp only [hcl, if_pos rfl]
            cases hd : a.dispute tr.amount with
            | error e => simp [hd, Except.map]
            | ok acct2 =>
              simp [hd, Except.map, setLocked_updateClient_ne r c client _ hcc,
                setLocked_updateLog]
          · simp [hcl, Except.map]
      | resolve =>
        simp only [ClientRepository.process, ha, hl, setLocked_transaction_log]
        cases htr : r.transaction_log tx with
        | none => simp [Except.map]
        | some tr =>
          by_cases hg : tr.typ = .dispute ∧ tr.client = client
          · simp only [hg, if_pos]
            cases hd : a.resolve tr.amount with
            | error e => simp [hd, Except.map]
            | ok acct2 =>
              simp [hd, Except.map, setLocked_updateClient_ne r c client _ hcc]
          · simp [hg, Except.map]
      | chargeback =>
        simp only [ClientRepository.process, ha, hl, setLocked_transaction_log]
        cases htr : r.transaction_log tx with
        | none => simp [Except.map]
        | some tr =>
          by_cases hg : tr.typ = .dispute ∧ tr.client = client
          · simp only [hg, if_pos]
            cases hd : a.chargeback tr.amount with
            | error e => simp [hd, Except.map]
            | ok acct2 =>
              simp [hd, Except.map, setLocked_updateClient_ne r c client _ hcc]
          · simp [hg, Except.map]

/-- Witness for C9: a deposit for `sampleRepo`'s client 1 behaves the
same whether or not the account is locked. -/
theorem locked_account_not_gated_witness :
    (setLocked 1 sampleRepo).process ⟨.deposit, 1, 9, some 2⟩
      = (sampleRepo.process ⟨.deposit, 1, 9, some 2⟩).map (setLocked 1) :=
  locked_account_not_gated sampleRepo ⟨.deposit, 1, 9, some 2⟩ 1 rfl

end PEngine
